import Mathlib

/-!
# Verification of the `ecstatic` ECS core

Shallow embedding of the two source files of the `ecstatic` repository:

* `src/ecs/typelist.rs` — the type-level manifest-validation algebra
  (`Consume` / `ConsumeMultiple`).  Component types are represented by
  natural-number identifiers; the type-level derivation becomes an
  executable list-consumption function.
* `src/lib.rs` — the `define_world!` macro body: the `World` struct with
  its entity counter and free list, `build_entity` and `delete_entity`.

Rust's `Vec` push/pop operate on the back of the vector; the free list is
represented here as a `List` with the back of the `Vec` at the head, so
`push` is `cons` and `pop` takes the head.  Storage cells (`set` keyed by
`entity.id`) and `RefCell` borrow semantics are external to the two source
files and are modelled from the specification where needed.
-/

namespace Ecstatic

/-- Embedding of the type-level trait `Consume<Target, Index>` from
`src/ecs/typelist.rs`: scan the list for the first entry equal to
`target`; on success the associated `Remainder` is the list with that
entry removed (entries before it kept in front, order preserved).
`none` corresponds to the absence of an impl (a compile error in Rust). -/
def consume : List Nat → Nat → Option (List Nat)
  | [], _ => none
  | h :: t, target =>
    if h = target then some t
    else (consume t target).map (fun r => h :: r)

/-- Embedding of the type-level trait `ConsumeMultiple<Targets, Indices>`
from `src/ecs/typelist.rs`: consume each target in order from the running
remainder; the final remainder is the result. -/
def consumeMultiple : List Nat → List Nat → Option (List Nat)
  | src, [] => some src
  | src, t :: ts =>
    match consume src t with
    | some rem => consumeMultiple rem ts
    | none => none

/-- The validation-error taxonomy of the specification (§7).  The
type-level code signals failure only as a missing impl, so the error
values themselves are modelled from the spec. -/
inductive ValidationError
  | UnregisteredComponent (t : Nat)
  | ConflictingAccess (t : Nat)
  deriving DecidableEq

/-- Modelled from the spec: the runtime rendering (§4.2/§9) of the
manifest validator.  The type-level `ConsumeMultiple` only distinguishes
success from failure; the spec additionally reports
`UnregisteredComponent` when the failing type never appears in the
registry `R`, and `ConflictingAccess` when it does appear (hence was
already consumed earlier in the same pass).  `W` is the working copy. -/
def validate (R : List Nat) : List Nat → List Nat → Except ValidationError (List Nat)
  | W, [] => .ok W
  | W, m :: ms =>
    match consume W m with
    | some W2 => validate R W2 ms
    | none =>
      if m ∈ R then .error (.ConflictingAccess m)
      else .error (.UnregisteredComponent m)

/-- Validate a manifest `M` against registry `R`: the working copy starts
as `R` itself. -/
def validateManifest (R M : List Nat) : Except ValidationError (List Nat) :=
  validate R R M

lemma consume_of_mem {R : List Nat} {t : Nat} (h : t ∈ R) :
    consume R t = some (R.erase t) := by
  induction R with
  | nil => cases h
  | cons a R ih =>
    by_cases ha : a = t
    · subst ha
      simp [consume, List.erase_cons_head]
    · have ht : t ∈ R := by
        rcases List.mem_cons.mp h with h1 | h1
        · exact absurd h1.symm ha
        · exact h1
      simp [consume, ha, ih ht, List.erase_cons_tail, Option.map,
        beq_iff_eq, ha]

lemma consume_of_not_mem {R : List Nat} {t : Nat} (h : t ∉ R) :
    consume R t = none := by
  induction R with
  | nil => rfl
  | cons a R ih =>
    have ha : a ≠ t := fun hc => h (hc ▸ List.mem_cons_self a R)
    have ht : t ∉ R := fun hc => h (List.mem_cons_of_mem a hc)
    simp [consume, ha, ih ht]

lemma consume_eq_none_iff {R : List Nat} {t : Nat} :
    consume R t = none ↔ t ∉ R := by
  constructor
  · intro h hm
    rw [consume_of_mem hm] at h
    cases h
  · exact consume_of_not_mem

/-- If `r ∉ M`, consuming `M` from `r :: R` leaves `r` in front and
otherwise behaves exactly like consuming `M` from `R`. -/
lemma consumeMultiple_cons_of_not_mem {M R : List Nat} {r : Nat} (h : r ∉ M) :
    consumeMultiple (r :: R) M = (consumeMultiple R M).map (fun l => r :: l) := by
  induction M generalizing R with
  | nil => rfl
  | cons m ms ih =>
    have hr : r ≠ m := fun hc => h (hc ▸ List.mem_cons_self m ms)
    have hms : r ∉ ms := fun hc => h (List.mem_cons_of_mem m hc)
    cases hc : consume R m with
    | some rem =>
      simp [consumeMultiple, consume, hr, hc, ih hms]
    | none =>
      simp [consumeMultiple, consume, hr, hc]

lemma validate_ok_iff (R : List Nat) :
    ∀ (W M W2 : List Nat), validate R W M = .ok W2 ↔ consumeMultiple W M = some W2 := by
  intro W M
  induction M generalizing W with
  | nil =>
    intro W2
    simp [validate, consumeMultiple]
  | cons m ms ih =>
    intro W2
    cases hc : consume W m with
    | some W1 => simp [validate, consumeMultiple, hc, ih]
    | none =>
      by_cases hm : m ∈ R <;> simp [validate, consumeMultiple, hc, hm]

lemma validate_error_iff (R : List Nat) :
    ∀ (W M : List Nat) (e : ValidationError),
      validate R W M = .error e ↔
        ∃ M1 t M2 W2, M = M1 ++ t :: M2 ∧ consumeMultiple W M1 = some W2 ∧
          consume W2 t = none ∧
          e = if t ∈ R then .ConflictingAccess t else .UnregisteredComponent t := by
  intro W M
  induction M generalizing W with
  | nil =>
    intro e
    constructor
    · intro h
      simp [validate] at h
    · rintro ⟨M1, t, M2, W2, hM, -, -, -⟩
      exact absurd hM (List.append_ne_nil_of_right_ne_nil M1 (by simp)).symm
  | cons m ms ih =>
    intro e
    cases hc : consume W m with
    | some W1 =>
      rw [show validate R W (m :: ms) = validate R W1 ms by simp [validate, hc], ih]
      constructor
      · rintro ⟨M1, t, M2, W2, hM, hW2, ht, he⟩
        exact ⟨m :: M1, t, M2, W2, by simp [hM],
          by simp [consumeMultiple, hc, hW2], ht, he⟩
      · rintro ⟨M1, t, M2, W2, hM, hW2, ht, he⟩
        cases M1 with
        | nil =>
          simp at hM
          obtain ⟨ht', hms⟩ := hM
          simp [consumeMultiple] at hW2
          rw [ht', hW2] at hc
          rw [ht] at hc
          cases hc
        | cons m1 M1 =>
          simp at hM
          obtain ⟨hm1, hms⟩ := hM
          subst hm1
          simp [consumeMultiple, hc] at hW2
          exact ⟨M1, t, M2, W2, hms, hW2, ht, he⟩
    | none =>
      constructor
      · intro h
        refine ⟨[], m, ms, W, rfl, rfl, hc, ?_⟩
        by_cases hm : m ∈ R <;> simp [validate, hc, hm] at h <;> simp [hm, h.symm]
      · rintro ⟨M1, t, M2, W2, hM, hW2, ht, he⟩
        cases M1 with
        | nil =>
          simp at hM
          obtain ⟨ht', hms⟩ := hM
          subst ht'
          simp [consumeMultiple] at hW2
          subst hW2
          by_cases hm : m ∈ R <;> simp [validate, hc, hm, he]
        | cons m1 M1 =>
          simp at hM
          obtain ⟨hm1, hms⟩ := hM
          subst hm1
          simp [consumeMultiple, hc] at hW2

/-- **C1.** For every duplicate-free registry `R` and every manifest `M`
that is an order-preserving subsequence of `R`, the sequential
first-match consumption of `M` from `R` (the embedding of
`Consume`/`ConsumeMultiple`) succeeds, and the remainder is exactly `R`
with the consumed entries removed, the survivors keeping their original
relative order (i.e. the order-preserving filter of `R` by
non-membership in `M`). -/
theorem consumeMultiple_sublist_eq (R M : List Nat) (hR : R.Nodup)
    (hM : M.Sublist R) :
    consumeMultiple R M = some (R.filter (fun t => decide (t ∉ M))) := by
  induction R generalizing M with
  | nil =>
    rw [List.sublist_nil.mp hM]
    rfl
  | cons r R ih =>
    obtain ⟨hrR, hR'⟩ := List.nodup_cons.mp hR
    cases hM with
    | cons _ h =>
      have hrM : r ∉ M := fun hc => hrR (h.subset hc)
      rw [consumeMultiple_cons_of_not_mem hrM, ih M hR' h]
      simp [List.filter_cons, hrM]
    | cons₂ _ h =>
      rename_i M'
      have hstep : consumeMultiple (r :: R) (r :: M') = consumeMultiple R M' := by
        simp [consumeMultiple, consume]
      rw [hstep, ih M' hR' h]
      congr 1
      rw [show (r :: R).filter (fun t => decide (t ∉ r :: M'))
            = R.filter (fun t => decide (t ∉ r :: M')) by simp [List.filter_cons]]
      apply List.filter_congr
      intro x hx
      have hxr : x ≠ r := fun hc => hrR (hc ▸ hx)
      simp [hxr]

/-- Witness for C1 at `R = [0,1,2]`, `M = [0,2]`: validation succeeds
with remainder `[1]`. -/
theorem consumeMultiple_sublist_eq_witness :
    consumeMultiple [0, 1, 2] [0, 2]
      = some (List.filter (fun t => decide (t ∉ [0, 2])) [0, 1, 2]) :=
  consumeMultiple_sublist_eq [0, 1, 2] [0, 2] (by decide) (by decide)

/-- **C2.** Validation of `M` against `R` fails exactly when some entry
`t` of `M` cannot be consumed from the working copy left after the
entries before it were all consumed — so the failure is immediate at the
first bad entry — and the reported error is `ConflictingAccess t` when
`t` appears in `R` (hence every copy of it was consumed by an earlier
entry of `M` in the same pass) and `UnregisteredComponent t` when `t`
never appears in `R` at all; successful validation agrees with the
embedded `ConsumeMultiple`. -/
theorem validateManifest_error_characterization (R M : List Nat) :
    (∀ W2, validateManifest R M = .ok W2 ↔ consumeMultiple R M = some W2) ∧
    (∀ e, validateManifest R M = .error e ↔
      ∃ M1 t M2 W2, M = M1 ++ t :: M2 ∧ consumeMultiple R M1 = some W2 ∧
        consume W2 t = none ∧
        e = if t ∈ R then .ConflictingAccess t else .UnregisteredComponent t) :=
  ⟨fun W2 => validate_ok_iff R R M W2, fun e => validate_error_iff R R M e⟩

/-- Witness for C2 at `R = [5]`, `M = [5, 5]` (duplicate request) and at
`R = [5]`, `M = [7]` (unregistered type): the characterization applies
and the concrete errors come out as the spec names them. -/
theorem validateManifest_error_characterization_witness :
    validateManifest [5] [5, 5] = .error (.ConflictingAccess 5) ∧
    validateManifest [5] [7] = .error (.UnregisteredComponent 7) := by
  constructor
  · exact ((validateManifest_error_characterization [5] [5, 5]).2
      (.ConflictingAccess 5)).mpr
      ⟨[5], 5, [], [], by decide, by decide, by decide, by decide⟩
  · exact ((validateManifest_error_characterization [5] [7]).2
      (.UnregisteredComponent 7)).mpr
      ⟨[], 7, [], [5], by decide, by decide, by decide, by decide⟩

/-- `Entity` from `src/lib.rs`: an id together with a generation. -/
structure Entity where
  id : Nat
  generation : Nat
  deriving DecidableEq

/-- The `World` struct generated by `define_world!` in `src/lib.rs`:
per-component storages (the macro expands one `RefCell`-wrapped storage
per declared component), the entity counter `num_entities` and the
`free_list`.  `ι` indexes the declared component fields and `C` is the
component value type.  A storage is modelled from the spec as a map
keyed by entity id (§6: `set(entity, optional value)` keyed by
`entity.id`); the concrete storage implementations live outside the two
source files.  The `Vec` free list is represented with the back (the
push/pop end) at the head of the `List`. -/
structure World (ι C : Type) where
  storages : ι → Nat → Option C
  num_entities : Nat
  free_list : List Entity

/-- Modelled from the spec: `ComponentStorage::set(entity, value)`,
keyed by `entity.id` (§6); writes `value` at that key and leaves every
other key unchanged. -/
def storageSet {C : Type} (s : Nat → Option C) (e : Entity) (v : Option C) :
    Nat → Option C :=
  fun i => if i = e.id then v else s i

/-- `build_entity` from `src/lib.rs`: pop the free list if possible and
bump the popped generation, otherwise mint `{id: num_entities,
generation: 0}` and advance the counter; then write the supplied
(optional) component values into every storage at the new entity. -/
def build_entity {ι C : Type} (w : World ι C) (components : ι → Option C) :
    Entity × World ι C :=
  match w.free_list with
  | e :: rest =>
    let entity : Entity := { e with generation := e.generation + 1 }
    (entity,
      { storages := fun c => storageSet (w.storages c) entity (components c),
        num_entities := w.num_entities,
        free_list := rest })
  | [] =>
    let entity : Entity := { id := w.num_entities, generation := 0 }
    (entity,
      { storages := fun c => storageSet (w.storages c) entity (components c),
        num_entities := w.num_entities + 1,
        free_list := [] })

/-- `delete_entity` from `src/lib.rs`: when `entity.id < num_entities`,
write `None` into every storage at the entity and push it (unchanged)
onto the free list; otherwise do nothing. -/
def delete_entity {ι C : Type} (w : World ι C) (e : Entity) : World ι C :=
  if e.id < w.num_entities then
    { storages := fun c => storageSet (w.storages c) e none,
      num_entities := w.num_entities,
      free_list := e :: w.free_list }
  else w

/-- **C3.** `build_entity` with a non-empty free list pops the most
recently pushed entry and returns it with the same id and the generation
bumped by one, leaving the entity counter unchanged; with an empty free
list it returns `{id := num_entities, generation := 0}` and advances the
counter by one. -/
theorem build_entity_allocation {ι C : Type} (w : World ι C)
    (components : ι → Option C) :
    (∀ e rest, w.free_list = e :: rest →
      (build_entity w components).1 = ⟨e.id, e.generation + 1⟩ ∧
      (build_entity w components).2.num_entities = w.num_entities ∧
      (build_entity w components).2.free_list = rest) ∧
    (w.free_list = [] →
      (build_entity w components).1 = ⟨w.num_entities, 0⟩ ∧
      (build_entity w components).2.num_entities = w.num_entities + 1 ∧
      (build_entity w components).2.free_list = []) := by
  constructor
  · intro e rest hfl
    simp [build_entity, hfl]
  · intro hfl
    simp [build_entity, hfl]

/-- Witness for C3: the free-list branch on a world whose free list
holds `⟨0, 4⟩`, and the counter branch on a fresh world. -/
theorem build_entity_allocation_witness :
    (build_entity (⟨fun _ _ => none, 1, [⟨0, 4⟩]⟩ : World Unit Unit)
        (fun _ => none)).1 = ⟨0, 5⟩ ∧
    (build_entity (⟨fun _ _ => none, 0, []⟩ : World Unit Unit)
        (fun _ => none)).1 = ⟨0, 0⟩ := by
  refine ⟨((build_entity_allocation (⟨fun _ _ => none, 1, [⟨0, 4⟩]⟩ : World Unit Unit)
      (fun _ => none)).1 ⟨0, 4⟩ [] rfl).1, ?_⟩
  exact ((build_entity_allocation (⟨fun _ _ => none, 0, []⟩ : World Unit Unit)
      (fun _ => none)).2 rfl).1

/-- **C4 (amended).** The claim as stated fails for entities whose id is
out of range (see the counterexample): `delete_entity` only clears and
pushes when `e.id < num_entities`.  Under that guard it writes `None`
into every component storage at `e.id` and pushes `e` unchanged — in
particular without touching its generation — onto the free list. -/
theorem delete_entity_in_range {ι C : Type} (w : World ι C) (e : Entity)
    (h : e.id < w.num_entities) :
    (∀ c, (delete_entity w e).storages c e.id = none) ∧
    (delete_entity w e).free_list = e :: w.free_list ∧
    (delete_entity w e).num_entities = w.num_entities := by
  refine ⟨fun c => ?_, ?_, ?_⟩ <;> simp [delete_entity, h, storageSet]

/-- Witness for C4's amended theorem on a world with one allocated
entity. -/
theorem delete_entity_in_range_witness :
    (∀ c : Unit, (delete_entity (⟨fun _ _ => none, 1, []⟩ : World Unit Unit)
        ⟨0, 3⟩).storages c 0 = none) ∧
    (delete_entity (⟨fun _ _ => none, 1, []⟩ : World Unit Unit)
        ⟨0, 3⟩).free_list = [⟨0, 3⟩] ∧
    (delete_entity (⟨fun _ _ => none, 1, []⟩ : World Unit Unit)
        ⟨0, 3⟩).num_entities = 1 :=
  delete_entity_in_range (⟨fun _ _ => none, 1, []⟩ : World Unit Unit) ⟨0, 3⟩
    (by decide)

/-- Counterexample to C4 as stated: on a fresh world (`num_entities =
0`) the entity `⟨0, 0⟩` is **not** pushed onto the free list by
`delete_entity`, contradicting "for every entity value e … pushes e onto
the free list". -/
theorem delete_entity_unconditional_push_false :
    ¬ ((delete_entity (⟨fun _ _ => none, 0, []⟩ : World Unit Unit)
        ⟨0, 0⟩).free_list
      = ⟨0, 0⟩ ::
        (⟨fun _ _ => none, 0, []⟩ : World Unit Unit).free_list) := by
  decide

/-- **C9.** For an entity whose id is out of range
(`e.id ≥ num_entities`), `delete_entity` is a silent no-op: the world —
storages, counter and free list — is returned unchanged. -/
theorem delete_entity_out_of_range {ι C : Type} (w : World ι C) (e : Entity)
    (h : w.num_entities ≤ e.id) :
    delete_entity w e = w := by
  simp [delete_entity, Nat.not_lt.mpr h]

/-- Witness for C9: deleting `⟨3, 1⟩` from a world with
`num_entities = 2` changes nothing. -/
theorem delete_entity_out_of_range_witness :
    delete_entity (⟨fun _ _ => none, 2, []⟩ : World Unit Unit) ⟨3, 1⟩
      = (⟨fun _ _ => none, 2, []⟩ : World Unit Unit) :=
  delete_entity_out_of_range _ ⟨3, 1⟩ (by decide)

/-- **C10.** `delete_entity` never inspects the generation: any entity
value with an in-range id — stale generation or not — has its component
slots cleared and is pushed with its given generation, so the next
`build_entity` (which pops it) returns `⟨e.id, e.generation + 1⟩`,
whatever generation was actually live for that id. -/
theorem delete_entity_ignores_generation {ι C : Type} (w : World ι C)
    (e : Entity) (components : ι → Option C) (h : e.id < w.num_entities) :
    (∀ c, (delete_entity w e).storages c e.id = none) ∧
    (delete_entity w e).free_list = e :: w.free_list ∧
    (build_entity (delete_entity w e) components).1
      = ⟨e.id, e.generation + 1⟩ := by
  refine ⟨fun c => ?_, ?_, ?_⟩ <;>
    simp [delete_entity, h, storageSet, build_entity]

/-- Witness for C10: the live generation for id 0 is 7 (say), yet
deleting the stale value `⟨0, 2⟩` and rebuilding yields generation 3. -/
theorem delete_entity_ignores_generation_witness :
    (∀ c : Unit, (delete_entity (⟨fun _ _ => none, 1, []⟩ : World Unit Unit)
        ⟨0, 2⟩).storages c 0 = none) ∧
    (delete_entity (⟨fun _ _ => none, 1, []⟩ : World Unit Unit)
        ⟨0, 2⟩).free_list = [⟨0, 2⟩] ∧
    (build_entity (delete_entity (⟨fun _ _ => none, 1, []⟩ : World Unit Unit)
        ⟨0, 2⟩) (fun _ => none)).1 = ⟨0, 3⟩ :=
  delete_entity_ignores_generation (⟨fun _ _ => none, 1, []⟩ : World Unit Unit)
    ⟨0, 2⟩ (fun _ => none) (by decide)

/-- A run of consecutive `build_entity` calls: one call per element of
the component-set list, threading the world through; returns the
entities in call order together with the final world. -/
def buildSeq {ι C : Type} (w : World ι C) :
    List (ι → Option C) → List Entity × World ι C
  | [] => ([], w)
  | c :: cs =>
    let r := build_entity w c
    let rr := buildSeq r.2 cs
    (r.1 :: rr.1, rr.2)

lemma build_entity_empty_free {ι C : Type} (w : World ι C)
    (c : ι → Option C) (h : w.free_list = []) :
    (build_entity w c).1 = ⟨w.num_entities, 0⟩ ∧
    (build_entity w c).2.num_entities = w.num_entities + 1 ∧
    (build_entity w c).2.free_list = [] := by
  simp [build_entity, h]

lemma buildSeq_empty_free {ι C : Type} :
    ∀ (cs : List (ι → Option C)) (w : World ι C), w.free_list = [] →
      (buildSeq w cs).1
        = (List.range cs.length).map (fun k => ⟨w.num_entities + k, 0⟩) := by
  intro cs
  induction cs with
  | nil => intro w _; rfl
  | cons c cs ih =>
    intro w h
    obtain ⟨h1, h2, h3⟩ := build_entity_empty_free w c h
    have := ih (build_entity w c).2 h3
    rw [h2] at this
    simp only [buildSeq, this, h1, List.length_cons, List.range_succ_eq_map,
      List.map_cons, List.map_map]
    congr 1
    apply List.map_congr_left
    intro k _
    show (⟨w.num_entities + 1 + k, 0⟩ : Entity) = ⟨w.num_entities + Nat.succ k, 0⟩
    congr 1
    all_goals omega

/-- **C8 (amended).** The claim as stated over *every* world state fails
when the free list is non-empty (see the counterexample): recycled slots
come back with a bumped, non-zero generation.  From any world whose free
list is empty, `n` consecutive `build_entity` calls yield entities with
strictly increasing (hence pairwise-distinct) ids, every one with
generation 0. -/
theorem buildSeq_fresh_ids {ι C : Type} (w : World ι C)
    (cs : List (ι → Option C)) (h : w.free_list = []) :
    ((buildSeq w cs).1.map Entity.id).Pairwise (· < ·) ∧
    ((buildSeq w cs).1.map Entity.id).Nodup ∧
    ∀ e ∈ (buildSeq w cs).1, e.generation = 0 := by
  rw [buildSeq_empty_free cs w h]
  have hpw : ((List.range cs.length).map
      (fun k => (⟨w.num_entities + k, 0⟩ : Entity))).map Entity.id
        |>.Pairwise (· < ·) := by
    rw [List.map_map]
    refine List.Pairwise.map _ ?_ (List.pairwise_lt_range cs.length)
    intro a b hab
    simpa using Nat.add_lt_add_left hab w.num_entities
  refine ⟨hpw, hpw.imp (fun hab => Nat.ne_of_lt hab), ?_⟩
  intro e he
  rw [List.mem_map] at he
  obtain ⟨k, -, hk⟩ := he
  rw [← hk]

/-- Witness for C8's amended theorem: three allocations from a world
with empty free list and counter 5 give ids 5, 6, 7, generations 0. -/
theorem buildSeq_fresh_ids_witness :
    (((buildSeq (⟨fun _ _ => none, 5, []⟩ : World Unit Unit)
        [fun _ => none, fun _ => none, fun _ => none]).1.map
          Entity.id).Pairwise (· < ·)) ∧
    (((buildSeq (⟨fun _ _ => none, 5, []⟩ : World Unit Unit)
        [fun _ => none, fun _ => none, fun _ => none]).1.map
          Entity.id).Nodup) ∧
    ∀ e ∈ (buildSeq (⟨fun _ _ => none, 5, []⟩ : World Unit Unit)
        [fun _ => none, fun _ => none, fun _ => none]).1, e.generation = 0 :=
  buildSeq_fresh_ids (⟨fun _ _ => none, 5, []⟩ : World Unit Unit)
    [fun _ => none, fun _ => none, fun _ => none] rfl

/-- Counterexample to C8 as stated: a world state whose free list holds
the released entity `⟨0, 0⟩` (reached from a fresh world by one build
and one delete).  A single subsequent allocation returns `⟨0, 1⟩`, whose
generation is not 0 — so "for every World state, n consecutive allocate
calls … all with generation = 0" is false. -/
theorem buildSeq_generation_zero_false :
    ∃ e ∈ (buildSeq
        (delete_entity
          (build_entity (⟨fun _ _ => none, 0, []⟩ : World Unit Unit)
            (fun _ => none)).2 ⟨0, 0⟩)
        [fun _ => none]).1, e.generation ≠ 0 := by
  refine ⟨⟨0, 1⟩, ?_, by decide⟩
  simp [buildSeq, build_entity, delete_entity]

/-- One client-visible lifecycle operation on a `World`: a
`build_entity` call (with its component set) or a `delete_entity` call
(with the entity value passed in). -/
inductive Op (ι C : Type)
  | build (components : ι → Option C)
  | delete (e : Entity)

/-- A world together with the ghost list of currently-live entities —
returned by `build_entity` and not yet passed to `delete_entity`. -/
structure WState (ι C : Type) where
  world : World ι C
  live : List Entity

/-- Apply one operation, maintaining the ghost live list. -/
def applyOp {ι C : Type} (s : WState ι C) : Op ι C → WState ι C
  | .build components =>
    let r := build_entity s.world components
    { world := r.2, live := r.1 :: s.live }
  | .delete e => { world := delete_entity s.world e, live := s.live.erase e }

/-- The usage discipline of the claim: `delete_entity` is applied only
to a currently-live entity; builds are unrestricted. -/
def legalOp {ι C : Type} (s : WState ι C) : Op ι C → Prop
  | .build _ => True
  | .delete e => e ∈ s.live

/-- States reachable by sequences of legal operations. -/
inductive Reaches {ι C : Type} : WState ι C → WState ι C → Prop
  | refl (s : WState ι C) : Reaches s s
  | step {s t : WState ι C} (op : Op ι C) :
      Reaches s t → legalOp t op → Reaches s (applyOp t op)

/-- A freshly built world (counter 0, empty free list, arbitrary initial
storage contents) with no live entities. -/
def initState {ι C : Type} (st : ι → Nat → Option C) : WState ι C :=
  ⟨⟨st, 0, []⟩, []⟩

/-- Every entity value the state owns: the live entities followed by the
free list. -/
def pool {ι C : Type} (s : WState ι C) : List Entity :=
  s.live ++ s.world.free_list

/-- The lifecycle invariant: the ids in the pool are pairwise distinct
and all below the entity counter. -/
def Inv {ι C : Type} (s : WState ι C) : Prop :=
  ((pool s).map Entity.id).Nodup ∧ ∀ e ∈ pool s, e.id < s.world.num_entities

lemma pool_build_pop {ι C : Type} {s : WState ι C} {e : Entity}
    {rest : List Entity} (c : ι → Option C)
    (h : s.world.free_list = e :: rest) :
    pool (applyOp s (.build c))
      = (⟨e.id, e.generation + 1⟩ : Entity) :: (s.live ++ rest) := by
  simp [pool, applyOp, build_entity, h]

lemma pool_build_fresh {ι C : Type} {s : WState ι C} (c : ι → Option C)
    (h : s.world.free_list = []) :
    pool (applyOp s (.build c))
      = (⟨s.world.num_entities, 0⟩ : Entity) :: pool s := by
  simp [pool, applyOp, build_entity, h]

lemma pool_delete {ι C : Type} {s : WState ι C} {e : Entity}
    (h : e.id < s.world.num_entities) :
    pool (applyOp s (.delete e))
      = s.live.erase e ++ e :: s.world.free_list := by
  simp [pool, applyOp, delete_entity, h]

lemma pool_delete_perm {ι C : Type} {s : WState ι C} {e : Entity}
    (he : e ∈ s.live) (h : e.id < s.world.num_entities) :
    (pool (applyOp s (.delete e))).Perm (pool s) := by
  rw [pool_delete h, pool]
  exact List.perm_middle.trans
    ((List.perm_cons_erase he).symm.append_right s.world.free_list)

lemma pool_build_pop_perm {ι C : Type} {s : WState ι C} {e : Entity}
    {rest : List Entity} (c : ι → Option C)
    (h : s.world.free_list = e :: rest) :
    ((pool (applyOp s (.build c))).map Entity.id).Perm
      ((pool s).map Entity.id) := by
  rw [pool_build_pop c h, pool, h]
  simp only [List.map_append, List.map_cons]
  exact List.perm_middle.symm

lemma Inv_applyOp {ι C : Type} {s : WState ι C} {op : Op ι C}
    (hInv : Inv s) (hop : legalOp s op) : Inv (applyOp s op) := by
  obtain ⟨hnd, hlt⟩ := hInv
  cases op with
  | build c =>
    cases hfl : s.world.free_list with
    | cons e rest =>
      have hperm := pool_build_pop_perm c hfl
      constructor
      · exact (hperm.nodup_iff).mpr hnd
      · intro x hx
        rw [pool_build_pop c hfl] at hx
        have hnum : (applyOp s (.build c)).world.num_entities
            = s.world.num_entities := by
          simp [applyOp, build_entity, hfl]
        rw [hnum]
        rcases List.mem_cons.mp hx with hx | hx
        · subst hx
          exact hlt e (by rw [pool, hfl]; exact
            List.mem_append_right _ (List.mem_cons_self e rest))
        · rcases List.mem_append.mp hx with hx | hx
          · exact hlt x (List.mem_append_left _ hx)
          · exact hlt x (by rw [pool, hfl]; exact
              List.mem_append_right _ (List.mem_cons_of_mem e hx))
    | nil =>
      constructor
      · rw [pool_build_fresh c hfl]
        simp only [List.map_cons, List.nodup_cons]
        refine ⟨?_, hnd⟩
        intro hc
        rw [List.mem_map] at hc
        obtain ⟨x, hx, hxid⟩ := hc
        exact absurd hxid (Nat.ne_of_lt (hlt x hx))
      · intro x hx
        rw [pool_build_fresh c hfl] at hx
        have hnum : (applyOp s (.build c)).world.num_entities
            = s.world.num_entities + 1 := by
          simp [applyOp, build_entity, hfl]
        rw [hnum]
        rcases List.mem_cons.mp hx with hx | hx
        · subst hx
          exact Nat.lt_succ_self _
        · exact Nat.lt_succ_of_lt (hlt x hx)
  | delete e =>
    have he : e ∈ s.live := hop
    have hid : e.id < s.world.num_entities :=
      hlt e (List.mem_append_left _ he)
    have hperm := pool_delete_perm he hid
    constructor
    · exact (((hperm.map Entity.id)).nodup_iff).mpr hnd
    · intro x hx
      have hnum : (applyOp s (.delete e)).world.num_entities
          = s.world.num_entities := by
        simp [applyOp, delete_entity, hid]
      rw [hnum]
      exact hlt x (hperm.subset hx)

lemma Inv_initState {ι C : Type} (st : ι → Nat → Option C) :
    Inv (initState st) := by
  constructor <;> simp [initState, pool]

lemma Inv_reaches {ι C : Type} {st : ι → Nat → Option C} {s : WState ι C}
    (h : Reaches (initState st) s) : Inv s := by
  induction h with
  | refl => exact Inv_initState st
  | step op _ hop ih => exact Inv_applyOp ih hop

/-- **C6.** In every state reachable from a fresh world by
`build_entity` and `delete_entity` calls where deletion is applied only
to currently-live entities, the live entities have pairwise-distinct
ids. -/
theorem live_ids_nodup {ι C : Type} (st : ι → Nat → Option C)
    (s : WState ι C) (h : Reaches (initState st) s) :
    (s.live.map Entity.id).Nodup := by
  have hnd := (Inv_reaches h).1
  rw [pool, List.map_append] at hnd
  exact hnd.of_append_left

/-- Witness for C6 after one build step from a fresh world. -/
theorem live_ids_nodup_witness :
    ((applyOp (initState (fun _ _ => none) : WState Unit Unit)
        (Op.build fun _ => none)).live.map Entity.id).Nodup :=
  live_ids_nodup (fun _ _ => none) _
    (Reaches.step (Op.build fun _ => none) (Reaches.refl _) trivial)

/-- The generation currently associated with a slot id: the generation
of the unique pooled entity (live or on the free list) carrying that id,
if any. -/
def genOf {ι C : Type} (s : WState ι C) (i : Nat) : Option Nat :=
  ((pool s).find? (fun e => e.id == i)).map Entity.generation

lemma find_id_eq_some {l : List Entity} (hl : (l.map Entity.id).Nodup)
    {e : Entity} (he : e ∈ l) {i : Nat} (hi : e.id = i) :
    l.find? (fun x => x.id == i) = some e := by
  induction l with
  | nil => cases he
  | cons a l ih =>
    have ha : a.id ∉ l.map Entity.id := (List.nodup_cons.mp hl).1
    have hl' : (l.map Entity.id).Nodup := (List.nodup_cons.mp hl).2
    by_cases hai : a.id = i
    · have hea : e = a := by
        rcases List.mem_cons.mp he with h | h
        · exact h
        · exfalso
          apply ha
          rw [hai, ← hi]
          exact List.mem_map_of_mem Entity.id h
      subst hea
      simp [List.find?, hai]
    · have he' : e ∈ l := by
        rcases List.mem_cons.mp he with h | h
        · exact absurd (h ▸ hi) hai
        · exact h
      have hpa : (a.id == i) = false := by simp [hai]
      simp only [List.find?, hpa]
      exact ih hl' he'

lemma find_id_perm {l l' : List Entity} (hp : l.Perm l')
    (hl : (l.map Entity.id).Nodup) (i : Nat) :
    l.find? (fun x => x.id == i) = l'.find? (fun x => x.id == i) := by
  cases hfind : l'.find? (fun x => x.id == i) with
  | some e =>
    have he' : e ∈ l' := List.mem_of_find?_eq_some hfind
    have hpe : e.id = i := by simpa using List.find?_some hfind
    exact find_id_eq_some hl (hp.mem_iff.mpr he') hpe
  | none =>
    rw [List.find?_eq_none] at hfind ⊢
    intro x hx
    exact hfind x (hp.subset hx)

/-- Skipping an element the predicate rejects does not change `find?`. -/
lemma find_skip_middle (p : Entity → Bool) (a : Entity) (hpa : p a = false) :
    ∀ (l₁ l₂ : List Entity), (l₁ ++ a :: l₂).find? p = (l₁ ++ l₂).find? p := by
  intro l₁
  induction l₁ with
  | nil =>
    intro l₂
    simp only [List.nil_append, List.find?, hpa]
  | cons b l₁ ih =>
    intro l₂
    cases hpb : p b <;>
      simp only [List.cons_append, List.find?, hpb, List.append_eq, ih]

lemma genOf_eq_gen {ι C : Type} {s : WState ι C}
    (hnd : ((pool s).map Entity.id).Nodup) {e : Entity} (he : e ∈ pool s)
    {i : Nat} (hi : e.id = i) : genOf s i = some e.generation := by
  rw [genOf, find_id_eq_some hnd he hi]
  rfl

/-- **C7 (amended).** The claim as stated over *any* operation sequence
fails once `delete_entity` is handed a fabricated entity value (see the
counterexample); restricted to sequences in which deletion is applied
only to currently-live entities it holds: across one legal step from a
reachable state, the generation associated with a slot id never
decreases; a delete step never changes it; and when it changes, the step
is a build that pops that very id off the free list and the generation
increases by exactly one. -/
theorem generation_monotonic {ι C : Type} (st : ι → Nat → Option C)
    (s : WState ι C) (h : Reaches (initState st) s) (op : Op ι C)
    (hop : legalOp s op) (i g g' : Nat)
    (hg : genOf s i = some g) (hg' : genOf (applyOp s op) i = some g') :
    g ≤ g' ∧
    (∀ e, op = Op.delete e → g' = g) ∧
    (g' ≠ g → g' = g + 1 ∧
      ∃ c e rest, op = Op.build c ∧
        s.world.free_list = e :: rest ∧ e.id = i ∧ e.generation = g) := by
  obtain ⟨hnd, hlt⟩ := Inv_reaches h
  cases op with
  | delete e =>
    have he : e ∈ s.live := hop
    have hid : e.id < s.world.num_entities :=
      hlt e (List.mem_append_left _ he)
    have hperm := pool_delete_perm he hid
    have hsame : genOf (applyOp s (.delete e)) i = genOf s i := by
      rw [genOf, genOf,
        find_id_perm hperm (((hperm.map Entity.id)).nodup_iff.mpr hnd) i]
    rw [hsame, hg] at hg'
    cases hg'
    exact ⟨Nat.le_refl g, fun _ _ => rfl, fun hne => absurd rfl hne⟩
  | build c =>
    cases hfl : s.world.free_list with
    | nil =>
      obtain ⟨e, hfind, hgen⟩ := Option.map_eq_some'.mp hg
      have he : e ∈ pool s := List.mem_of_find?_eq_some hfind
      have hei : e.id = i := by simpa using List.find?_some hfind
      have hlti : i < s.world.num_entities := hei ▸ hlt e he
      have hsame : genOf (applyOp s (.build c)) i = genOf s i := by
        rw [genOf, pool_build_fresh c hfl, genOf]
        have hpa : ((⟨s.world.num_entities, 0⟩ : Entity).id == i) = false := by
          simp
          omega
        simp only [List.find?, hpa]
      rw [hsame, hg] at hg'
      cases hg'
      exact ⟨Nat.le_refl g, fun e heq => Op.noConfusion heq,
        fun hne => absurd rfl hne⟩
    | cons e0 rest =>
      have he0 : e0 ∈ pool s := by
        rw [pool, hfl]
        exact List.mem_append_right _ (List.mem_cons_self e0 rest)
      have hperm := pool_build_pop_perm c hfl
      have hnd' : ((pool (applyOp s (.build c))).map Entity.id).Nodup :=
        hperm.nodup_iff.mpr hnd
      by_cases hi : e0.id = i
      · have hgs : genOf s i = some e0.generation := genOf_eq_gen hnd he0 hi
        have hmem' : (⟨e0.id, e0.generation + 1⟩ : Entity)
            ∈ pool (applyOp s (.build c)) := by
          rw [pool_build_pop c hfl]
          exact List.mem_cons_self _ _
        have hgs' : genOf (applyOp s (.build c)) i
            = some (e0.generation + 1) :=
          genOf_eq_gen hnd' hmem' hi
        rw [hgs] at hg
        rw [hgs'] at hg'
        cases hg
        cases hg'
        exact ⟨Nat.le_succ _, fun e heq => Op.noConfusion heq,
          fun _ => ⟨rfl, c, e0, rest, rfl, rfl, hi, rfl⟩⟩
      · have hsame : genOf (applyOp s (.build c)) i = genOf s i := by
          have hpa : ((⟨e0.id, e0.generation + 1⟩ : Entity).id == i)
              = false := by simpa using hi
          have hpa0 : (e0.id == i) = false := by simpa using hi
          have hskip := find_skip_middle (fun x => x.id == i) e0 hpa0
            s.live rest
          rw [genOf, genOf, pool_build_pop c hfl, pool, hfl]
          simp only [List.find?, hpa]
          rw [hskip]
        rw [hsame, hg] at hg'
        cases hg'
        exact ⟨Nat.le_refl g, fun e heq => Op.noConfusion heq,
          fun hne => absurd rfl hne⟩

/-- Witness for C7's amended theorem: one build from a fresh world, then
the legal delete of the live entity `⟨0, 0⟩`; the generation of slot 0
is 0 before and after. -/
theorem generation_monotonic_witness :
    (0 : Nat) ≤ 0 ∧
    (∀ e, (Op.delete (⟨0, 0⟩ : Entity) : Op Unit Unit) = Op.delete e →
      (0 : Nat) = 0) ∧
    ((0 : Nat) ≠ 0 → (0 : Nat) = 0 + 1 ∧
      ∃ (c : Unit → Option Unit) (e : Entity) (rest : List Entity),
        (Op.delete (⟨0, 0⟩ : Entity) : Op Unit Unit) = Op.build c ∧
        (applyOp (initState (fun _ _ => none) : WState Unit Unit)
          (Op.build fun _ => none)).world.free_list = e :: rest ∧
        e.id = 0 ∧ e.generation = 0) :=
  generation_monotonic (fun _ _ => none)
    (applyOp (initState (fun _ _ => none) : WState Unit Unit)
      (Op.build fun _ => none))
    (Reaches.step (Op.build fun _ => none) (Reaches.refl _) trivial)
    (Op.delete (⟨0, 0⟩ : Entity))
    (show (⟨0, 0⟩ : Entity) ∈ [(⟨0, 0⟩ : Entity)] from List.mem_cons_self _ _)
    0 0 0 (by decide) (by decide)

/-- Counterexample to C7 as stated: with unrestricted `delete_entity`
calls the generation associated with a slot can decrease.  From a fresh
world: build (gives `⟨0,0⟩`), delete the fabricated value `⟨0,5⟩`, build
(gives `⟨0,6⟩`), delete the stale value `⟨0,0⟩`, build again — the last
build returns `⟨0,1⟩`, so the generation observed for id 0 fell from 6
to 1. -/
theorem generation_can_decrease_unrestricted :
    (build_entity
      (delete_entity
        (build_entity (⟨fun _ _ => none, 0, []⟩ : World Unit Unit)
          (fun _ => none)).2
        ⟨0, 5⟩)
      (fun _ => none)).1 = ⟨0, 6⟩ ∧
    (build_entity
      (delete_entity
        (build_entity
          (delete_entity
            (build_entity (⟨fun _ _ => none, 0, []⟩ : World Unit Unit)
              (fun _ => none)).2
            ⟨0, 5⟩)
          (fun _ => none)).2
        ⟨0, 0⟩)
      (fun _ => none)).1 = ⟨0, 1⟩ := by
  constructor <;> rfl

/-- Modelled from the spec: the borrow state of one guarded
storage/resource cell (§4.3).  The `GetComponent`/`GetResource` impls in
`src/lib.rs` delegate to `RefCell::borrow` / `borrow_mut`, whose
internals are outside the two source files; the spec describes the cell
as free, shared among some readers, or exclusively written.
`reading n` stands for `n + 1` outstanding read handles. -/
inductive BorrowState
  | free
  | reading (n : Nat)
  | writing
  deriving DecidableEq

/-- Modelled from the spec: the error a failed borrow reports (§7). -/
inductive BorrowError
  | BorrowViolation
  deriving DecidableEq

/-- Modelled from the spec: `borrow_read` succeeds unless an exclusive
handle is outstanding, adding one reader. -/
def borrow_read : BorrowState → Except BorrowError BorrowState
  | .writing => .error .BorrowViolation
  | .free => .ok (.reading 0)
  | .reading n => .ok (.reading (n + 1))

/-- Modelled from the spec: `borrow_write` succeeds only when no handle
of either kind is outstanding. -/
def borrow_write : BorrowState → Except BorrowError BorrowState
  | .free => .ok .writing
  | .reading _ => .error .BorrowViolation
  | .writing => .error .BorrowViolation

/-- Modelled from the spec: dropping one read handle. -/
def release_read : BorrowState → BorrowState
  | .reading 0 => .free
  | .reading (n + 1) => .reading n
  | s => s

/-- Modelled from the spec: dropping the write handle. -/
def release_write : BorrowState → BorrowState
  | .writing => .free
  | s => s

/-- **C5.** A read borrow on a cell succeeds exactly when no exclusive
handle is outstanding, and otherwise fails with `BorrowViolation`; a
write borrow succeeds exactly when no handle of either kind is
outstanding, and otherwise fails with `BorrowViolation`; and once the
conflicting handle is released the same request succeeds: releasing the
write handle lets a read borrow through, and releasing the single
outstanding read handle lets a write borrow through. -/
theorem borrow_semantics (s : BorrowState) :
    ((borrow_read s).isOk ↔ s ≠ .writing) ∧
    (borrow_read s = .error .BorrowViolation ↔ s = .writing) ∧
    ((borrow_write s).isOk ↔ s = .free) ∧
    (borrow_write s = .error .BorrowViolation ↔ s ≠ .free) ∧
    borrow_read (release_write .writing) = .ok (.reading 0) ∧
    borrow_write (release_read (.reading 0)) = .ok .writing := by
  cases s with
  | free => refine ⟨?_, ?_, ?_, ?_, rfl, rfl⟩ <;>
      simp [borrow_read, borrow_write, Except.isOk, Except.toBool]
  | writing => refine ⟨?_, ?_, ?_, ?_, rfl, rfl⟩ <;>
      simp [borrow_read, borrow_write, Except.isOk, Except.toBool]
  | reading n =>
    refine ⟨?_, ?_, ?_, ?_, rfl, rfl⟩ <;>
      simp [borrow_read, borrow_write, Except.isOk, Except.toBool]

/-- Witness for C5 at the exclusively-borrowed state. -/
theorem borrow_semantics_witness :
    ((borrow_read .writing).isOk ↔ (BorrowState.writing : BorrowState) ≠ .writing) ∧
    (borrow_read .writing = .error .BorrowViolation ↔
      (BorrowState.writing : BorrowState) = .writing) ∧
    ((borrow_write .writing).isOk ↔ (BorrowState.writing : BorrowState) = .free) ∧
    (borrow_write .writing = .error .BorrowViolation ↔
      (BorrowState.writing : BorrowState) ≠ .free) ∧
    borrow_read (release_write .writing) = .ok (.reading 0) ∧
    borrow_write (release_read (.reading 0)) = .ok .writing :=
  borrow_semantics .writing

end Ecstatic
